import Mathlib

/-!
Shallow embedding of the REINFORCE-style policy-gradient learner in
`Karpathy.py` (class `KPLearner` plus the helper functions `sigmoid` and
`random_with_probability`), together with theorems checking the
natural-language specification against it.

The embedding follows the source:
* `forward_step`, `backward_step`, `choose_action`, `random_with_probability`,
  `sample_categorical` embed the network and the action sampler over ℝ;
* `discount_rewards` is modelled from the spec (the `utils` module that
  defines it is not part of the sources at hand);
* `standardize` / `np_mean` / `np_std` embed lines 140-141 of `learn`
  (`numpy`'s population standard deviation);
* `episode_gradient` embeds lines 132-144 of `learn` (one episode's
  gradient contribution);
* `learn_episode` embeds the per-episode state transition of the training
  loop, lines 129-156 (gradient accumulation and the RMSProp batch update);
* `Traj`, `get_trajectory_loop`, `get_trajectory` embed the trajectory
  collector `get_trajectory` (lines 80-110) over an abstract environment,
  with ghost counters for steps taken and rendering calls, and rendering
  modelled as a fallible call (the source wraps it in no exception handler);
* `draw_requested` embeds the condition guarding `reporter.draw_rewards`
  (lines 149 and 159).
-/

namespace DeepRL

/-- One collected trajectory: the five per-step record lists built by
`KPLearner.get_trajectory`, plus ghost instrumentation: `stepsTaken` counts
calls to `env.step`, `renders` counts completed `env.render()` calls, and
`endedByDone` records whether the loop exited through the `done` break
(rather than by exhausting the step cap). -/
structure Traj (σ R P X : Type) where
  states : List σ
  actions : List ℕ
  rewards : List R
  probs : List P
  x1s : List X
  stepsTaken : ℕ
  renders : ℕ
  endedByDone : Bool

/-- The empty trajectory the collector starts from. -/
def emptyTraj (σ R P X : Type) : Traj σ R P X :=
  { states := [], actions := [], rewards := [], probs := [], x1s := [],
    stepsTaken := 0, renders := 0, endedByDone := false }

/-- The body of `KPLearner.get_trajectory`'s `for` loop.  Each iteration:
choose an action, append the hidden activation and the state, step the
environment, append action/reward/probabilities, break on `done`, otherwise
render when `render` is set.  `env.render()` is modelled by the flag
`renderOk`: when it is `false` the call raises, and since the source has no
handler around it the exception propagates as `Except.error`. -/
def get_trajectory_loop {σ R P X : Type} (step : σ → ℕ → σ × R × Bool)
    (choose : σ → ℕ × P × X) (render renderOk : Bool) :
    ℕ → σ → Traj σ R P X → Except String (Traj σ R P X)
  | 0, _, acc => Except.ok acc
  | n + 1, s, acc =>
    let c := choose s
    let e := step s c.1
    let acc2 : Traj σ R P X :=
      { states := acc.states ++ [s], actions := acc.actions ++ [c.1],
        rewards := acc.rewards ++ [e.2.1], probs := acc.probs ++ [c.2.1],
        x1s := acc.x1s ++ [c.2.2], stepsTaken := acc.stepsTaken + 1,
        renders := acc.renders, endedByDone := acc.endedByDone }
    if e.2.2 then Except.ok { acc2 with endedByDone := true }
    else if render then
      if renderOk then
        get_trajectory_loop step choose render renderOk n e.1
          { acc2 with renders := acc2.renders + 1 }
      else Except.error "render failed"
    else get_trajectory_loop step choose render renderOk n e.1 acc2

/-- `KPLearner.get_trajectory`: reset the environment and run the loop for at
most `episode_max_length` iterations. -/
def get_trajectory {σ R P X : Type} (reset : σ) (step : σ → ℕ → σ × R × Bool)
    (choose : σ → ℕ × P × X) (render renderOk : Bool)
    (episode_max_length : ℕ) : Except String (Traj σ R P X) :=
  get_trajectory_loop step choose render renderOk episode_max_length reset
    (emptyTraj σ R P X)

/-- Whether an `Except` result is a success. -/
def exceptOk {ε α : Type} : Except ε α → Bool
  | Except.ok _ => true
  | Except.error _ => false

/-- The condition under which `learn` calls `reporter.draw_rewards`
(line 159 nested inside the batch test of line 149): the episode counter is
a multiple of `batch_size` and a multiple of `draw_frequency`. -/
def draw_requested (batch_size draw_frequency episode_nr : ℕ) : Bool :=
  episode_nr % batch_size == 0 && episode_nr % draw_frequency == 0

/-- `sigmoid(x) = 1 / (1 + exp(-x))` (line 27-28). -/
noncomputable def sigmoid (x : ℝ) : ℝ :=
  1 / (1 + Real.exp (-x))

/-- `KPLearner.forward_step` (lines 66-70): `x1 = state · W1` with negative
entries zeroed (`x1[x1 < 0] = 0`, the ReLU), and
`output = sigmoid(x1 · W2)` element-wise. -/
noncomputable def forward_step {O H A : ℕ} (w1 : Matrix (Fin O) (Fin H) ℝ)
    (w2 : Matrix (Fin H) (Fin A) ℝ) (state : Fin O → ℝ) :
    (Fin H → ℝ) × (Fin A → ℝ) :=
  let x1pre := fun h => ∑ o, state o * w1 o h
  let x1 := fun h => if x1pre h < 0 then 0 else x1pre h
  let output := fun a => sigmoid (∑ h, x1 h * w2 h a)
  (x1, output)

/-- `KPLearner.backward_step` (lines 72-78): `change_w2 = x1ᵗ · feedback`;
`dh = feedback · w2ᵗ` with `dh[x1 <= 0] = 0`; `change_w1 = x0ᵗ · dh`.
The mask is read off the `x1` argument (the recorded activations), exactly
as in the source. -/
noncomputable def backward_step {T O H A : ℕ} (w2 : Matrix (Fin H) (Fin A) ℝ)
    (x0 : Matrix (Fin T) (Fin O) ℝ) (x1 : Matrix (Fin T) (Fin H) ℝ)
    (feedback : Matrix (Fin T) (Fin A) ℝ) :
    Matrix (Fin O) (Fin H) ℝ × Matrix (Fin H) (Fin A) ℝ :=
  let change_w2 := x1.transpose * feedback
  let dh : Matrix (Fin T) (Fin H) ℝ :=
    Matrix.of fun t h => if x1 t h ≤ 0 then 0 else (feedback * w2.transpose) t h
  let change_w1 := x0.transpose * dh
  (change_w1, change_w2)

/-- The categorical draw of `np.random.choice(n_actions, p=probs)` given a
uniform sample `u`: the first index whose cumulative probability exceeds
`u` (inverse-CDF sampling), defaulting to the last index. -/
noncomputable def sample_categorical {A : ℕ} (probs : Fin A → ℝ) (u : ℝ) : ℕ :=
  ((List.range A).find? fun k =>
    decide (u < ∑ b ∈ Finset.univ.filter (fun b : Fin A => b.val ≤ k), probs b)).getD
    (A - 1)

/-- `random_with_probability` (lines 30-35): normalize the raw scores by
their sum — an unconditional division, with no zero-sum check — then draw
an action from the resulting categorical distribution. -/
noncomputable def random_with_probability {A : ℕ} (output : Fin A → ℝ)
    (u : ℝ) : ℕ × (Fin A → ℝ) :=
  let probs := fun a => output a / ∑ b, output b
  (sample_categorical probs u, probs)

/-- `KPLearner.choose_action` (lines 61-64): forward pass, then sample. -/
noncomputable def choose_action {O H A : ℕ} (w1 : Matrix (Fin O) (Fin H) ℝ)
    (w2 : Matrix (Fin H) (Fin A) ℝ) (state : Fin O → ℝ) (u : ℝ) :
    ℕ × (Fin A → ℝ) × (Fin H → ℝ) :=
  let f := forward_step w1 w2 state
  let ap := random_with_probability f.2 u
  (ap.1, ap.2, f.1)

/-- `np.mean` of a list (population mean). -/
noncomputable def np_mean (l : List ℝ) : ℝ :=
  l.sum / l.length

/-- `np.std` of a list: the population standard deviation
`sqrt(mean((x - mean x)^2))`. -/
noncomputable def np_std (l : List ℝ) : ℝ :=
  Real.sqrt (((l.map fun x => (x - np_mean l) ^ 2).sum) / l.length)

/-- Lines 140-141 of `learn`: subtract the mean, then divide in place by
`np.std` of the (already centered) array.  No guard for a zero standard
deviation. -/
noncomputable def standardize (l : List ℝ) : List ℝ :=
  let c := l.map fun x => x - np_mean l
  c.map fun x => x / np_std c

/-- Modelled from the spec: `discount_rewards` lives in the repository's
`utils` module, which is not among the sources at hand; the spec defines it
as the right-to-left cumulative discounted sum
`G_t = r_t + discount_factor * G_{t+1}` with `G_T = 0`. -/
noncomputable def discount_rewards (r : List ℝ) (gamma : ℝ) : List ℝ :=
  match r with
  | [] => []
  | x :: xs =>
    let rest := discount_rewards xs gamma
    (x + gamma * rest.headD 0) :: rest

/-- Lines 132-144 of `learn`: one episode's gradient contribution.
`action_taken` is the one-hot encoding `np.arange(nA) == action[:, None]`;
`epdlogp = action_taken - prob`, scaled row-wise by the standardized
discounted returns, is fed to `backward_step` together with the stacked
states and hidden activations. -/
noncomputable def episode_gradient {T O H A : ℕ} (gamma : ℝ)
    (w2 : Matrix (Fin H) (Fin A) ℝ) (state : Matrix (Fin T) (Fin O) ℝ)
    (x1 : Matrix (Fin T) (Fin H) ℝ) (action : Fin T → ℕ)
    (prob : Matrix (Fin T) (Fin A) ℝ) (reward : Fin T → ℝ) :
    Matrix (Fin O) (Fin H) ℝ × Matrix (Fin H) (Fin A) ℝ :=
  let action_taken : Matrix (Fin T) (Fin A) ℝ :=
    Matrix.of fun t a => if a.val = action t then 1 else 0
  let disc := standardize (discount_rewards (List.ofFn reward) gamma)
  let epdlogp : Matrix (Fin T) (Fin A) ℝ :=
    Matrix.of fun t a => (action_taken t a - prob t a) * disc.getD t 0
  backward_step w2 state x1 epdlogp

/-- The hyperparameters of `KPLearner.learn` that govern the update loop. -/
structure KPConfig where
  learning_rate : ℝ
  batch_size : ℕ
  decay_rate : ℝ

/-- The mutable state of `KPLearner.learn` (lines 115-124): weights,
per-batch gradient accumulators, RMSProp caches, and the two counters. -/
structure LearnState (O H A : ℕ) where
  w1 : Matrix (Fin O) (Fin H) ℝ
  w2 : Matrix (Fin H) (Fin A) ℝ
  gradient1 : Matrix (Fin O) (Fin H) ℝ
  gradient2 : Matrix (Fin H) (Fin A) ℝ
  rmsprop1 : Matrix (Fin O) (Fin H) ℝ
  rmsprop2 : Matrix (Fin H) (Fin A) ℝ
  iteration : ℕ
  episode_nr : ℕ

/-- Lines 129-156 of `learn`, as a transition on `LearnState`: increment the
episode counter, add this episode's gradient pair into the accumulators,
and when the incremented counter is a multiple of `batch_size` perform the
batch update: `iteration += 1`;
`rmsprop = decay_rate * rmsprop + (1 - decay_rate) * gradient**2`;
`w += learning_rate * gradient / (np.sqrt(rmsprop) + 1e-5)`; reset both
gradient accumulators to zero.  The RMSProp caches are only ever written by
the exponential-moving-average formula. -/
noncomputable def learn_episode {O H A : ℕ} (cfg : KPConfig)
    (s : LearnState O H A) (change_w1 : Matrix (Fin O) (Fin H) ℝ)
    (change_w2 : Matrix (Fin H) (Fin A) ℝ) : LearnState O H A :=
  let ep := s.episode_nr + 1
  let g1 := s.gradient1 + change_w1
  let g2 := s.gradient2 + change_w2
  if ep % cfg.batch_size = 0 then
    let r1 : Matrix (Fin O) (Fin H) ℝ :=
      Matrix.of fun i j =>
        cfg.decay_rate * s.rmsprop1 i j + (1 - cfg.decay_rate) * g1 i j ^ 2
    let r2 : Matrix (Fin H) (Fin A) ℝ :=
      Matrix.of fun i j =>
        cfg.decay_rate * s.rmsprop2 i j + (1 - cfg.decay_rate) * g2 i j ^ 2
    { w1 := Matrix.of fun i j =>
        s.w1 i j + cfg.learning_rate * g1 i j / (Real.sqrt (r1 i j) + 1e-5),
      w2 := Matrix.of fun i j =>
        s.w2 i j + cfg.learning_rate * g2 i j / (Real.sqrt (r2 i j) + 1e-5),
      gradient1 := 0, gradient2 := 0,
      rmsprop1 := r1, rmsprop2 := r2,
      iteration := s.iteration + 1, episode_nr := ep }
  else
    { s with gradient1 := g1, gradient2 := g2, episode_nr := ep }

/-- C1: for every input batch, recorded hidden batch and error-signal matrix
of consistent shapes, `backward_step` returns `grad_W2 = hiddenᵗ · error` and
`grad_W1 = inputᵗ · dh`, where `dh = error · W2ᵗ` zeroed at every position
whose recorded hidden activation is ≤ 0; the mask comes from the `x1`
argument (the recorded activations), which is arbitrary here, not
recomputed from the inputs. -/
theorem backward_step_correct {T O H A : ℕ} (w2 : Matrix (Fin H) (Fin A) ℝ)
    (x0 : Matrix (Fin T) (Fin O) ℝ) (x1 : Matrix (Fin T) (Fin H) ℝ)
    (fb : Matrix (Fin T) (Fin A) ℝ) :
    (backward_step w2 x0 x1 fb).2 = x1.transpose * fb
    ∧ (backward_step w2 x0 x1 fb).1
        = x0.transpose *
          Matrix.of (fun t h => if x1 t h ≤ 0 then 0 else (fb * w2.transpose) t h)
    ∧ (∀ h a, (backward_step w2 x0 x1 fb).2 h a = ∑ t, x1 t h * fb t a)
    ∧ (∀ o h, (backward_step w2 x0 x1 fb).1 o h
        = ∑ t, x0 t o * (if x1 t h ≤ 0 then 0 else ∑ a, fb t a * w2 h a)) := by
  refine ⟨rfl, rfl, ?_, ?_⟩
  · intro h a
    simp [backward_step, Matrix.mul_apply, Matrix.transpose_apply]
  · intro o h
    simp [backward_step, Matrix.mul_apply, Matrix.transpose_apply]

/-- C4: `forward_step` returns `hidden = max(0, state · W1)` element-wise and
`probabilities = sigmoid(hidden · W2)` element-wise, as a pure function of
the weights; when every pre-activation is negative the hidden vector is all
zeros. -/
theorem forward_step_correct {O H A : ℕ} (w1 : Matrix (Fin O) (Fin H) ℝ)
    (w2 : Matrix (Fin H) (Fin A) ℝ) (state : Fin O → ℝ) :
    ((forward_step w1 w2 state).1 = fun h => max 0 (∑ o, state o * w1 o h))
    ∧ ((forward_step w1 w2 state).2
        = fun a => sigmoid (∑ h, (forward_step w1 w2 state).1 h * w2 h a))
    ∧ ((∀ h, ∑ o, state o * w1 o h < 0) →
        (forward_step w1 w2 state).1 = fun _ => 0) := by
  refine ⟨?_, rfl, ?_⟩
  · funext h
    show (if (∑ o, state o * w1 o h) < 0 then 0 else ∑ o, state o * w1 o h)
        = max 0 (∑ o, state o * w1 o h)
    rcases lt_or_le (∑ o, state o * w1 o h) 0 with hlt | hle
    · rw [if_pos hlt, max_eq_left hlt.le]
    · rw [if_neg (not_lt.mpr hle), max_eq_right hle]
  · intro hneg
    funext h
    show (if (∑ o, state o * w1 o h) < 0 then 0 else ∑ o, state o * w1 o h) = 0
    rw [if_pos (hneg h)]

/-- C4 witness: with `O = H = A = 1`, `W1 = 1` and `state = -1`, the single
pre-activation is negative and the returned hidden vector is zero. -/
theorem forward_step_correct_witness :
    (forward_step (Matrix.of fun _ _ => (1:ℝ)) (0 : Matrix (Fin 1) (Fin 1) ℝ)
      (fun _ : Fin 1 => (-1 : ℝ))).1 = fun _ => 0 :=
  (forward_step_correct _ _ _).2.2 (by
    intro h
    simp [Fin.sum_univ_one])

/-- C10: along the `choose_action` path the raw scores handed to
`random_with_probability` are sigmoid outputs, hence each lies strictly in
(0, 1); their sum is strictly positive, so the normalizing division is
well-defined (the zero-sum degenerate case is unreachable in exact real
arithmetic), and the returned probabilities are exactly the scores divided
by that positive sum. -/
theorem choose_action_scores_in_unit {O H A : ℕ} (hA : 0 < A)
    (w1 : Matrix (Fin O) (Fin H) ℝ) (w2 : Matrix (Fin H) (Fin A) ℝ)
    (state : Fin O → ℝ) (u : ℝ) :
    (∀ a, 0 < (forward_step w1 w2 state).2 a ∧ (forward_step w1 w2 state).2 a < 1)
    ∧ 0 < ∑ a, (forward_step w1 w2 state).2 a
    ∧ (∑ a, (forward_step w1 w2 state).2 a) ≠ 0
    ∧ (choose_action w1 w2 state u).2.1
        = fun a => (forward_step w1 w2 state).2 a
            / ∑ b, (forward_step w1 w2 state).2 b := by
  have hsig : ∀ x : ℝ, 0 < sigmoid x ∧ sigmoid x < 1 := by
    intro x
    constructor
    · exact div_pos one_pos (by positivity)
    · show (1 : ℝ) / (1 + Real.exp (-x)) < 1
      rw [div_lt_one (by positivity)]
      exact lt_add_of_pos_right 1 (Real.exp_pos _)
  have hpos : 0 < ∑ a, (forward_step w1 w2 state).2 a := by
    have : Nonempty (Fin A) := ⟨⟨0, hA⟩⟩
    exact Finset.sum_pos (fun a _ => (hsig _).1) Finset.univ_nonempty
  exact ⟨fun a => hsig _, hpos, ne_of_gt hpos, rfl⟩

/-- C10 witness: at `O = H = A = 1`, zero weights and zero state, the
sampler's raw-score sum is strictly positive. -/
theorem choose_action_scores_in_unit_witness :
    0 < ∑ a : Fin 1,
      (forward_step (0 : Matrix (Fin 1) (Fin 1) ℝ)
        (0 : Matrix (Fin 1) (Fin 1) ℝ) (fun _ => 0)).2 a :=
  (choose_action_scores_in_unit (by decide) 0 0 (fun _ => 0) 0).2.1

/-- C5 (code evaluated at the failing input): for a single-step episode with
reward 1 and `gamma = 0.99`, the discounted returns are `[1]`, the
population standard deviation of the centered returns is `0`, and
`standardize` divides by it anyway — an unguarded `0 / 0` (`NaN` in the
floating-point original), never a detected Degenerate-Returns error. -/
theorem standardize_degenerate_returns_unguarded :
    discount_rewards [(1:ℝ)] (99/100) = [1]
    ∧ np_std ((discount_rewards [(1:ℝ)] (99/100)).map
        (fun x => x - np_mean (discount_rewards [(1:ℝ)] (99/100)))) = 0
    ∧ standardize (discount_rewards [(1:ℝ)] (99/100)) = [0 / 0] := by
  have h1 : discount_rewards [(1:ℝ)] (99/100) = [1] := by
    simp [discount_rewards]
  refine ⟨h1, ?_, ?_⟩
  · rw [h1]
    simp [np_std, np_mean]
  · rw [standardize, h1]
    simp [np_std, np_mean]

/-- C6 (code evaluated at the failing input): for the all-zero raw-score
vector the normalizing denominator `np.sum(output)` is `0`, and
`random_with_probability` still returns `output / 0` as its probability
vector — an unconditional division with no Degenerate-Distribution check
(`0 / 0`, i.e. `NaN`, in the floating-point original). -/
theorem random_with_probability_zero_sum_unguarded :
    (∑ b : Fin 2, (fun _ : Fin 2 => (0:ℝ)) b) = 0
    ∧ (random_with_probability (fun _ : Fin 2 => (0:ℝ)) 0).2
        = fun _ => (0:ℝ) / 0 := by
  constructor
  · simp
  · funext a
    simp [random_with_probability]

/-- C7 counterexample: with the default configuration `batch_size = 10`,
`draw_frequency = 50`, a redraw is requested at iteration 5 (episode 50 is
a multiple of both 10 and 50), although 5 is not a multiple of the
configured interval 50 — so redraws are not issued "every N iterations"
with N the configured interval. -/
theorem draw_requested_counterexample :
    draw_requested 10 50 (5 * 10) = true ∧ ¬(5 % 50 = 0) := by
  decide

/-- C7 amended: `learn` requests a reward-curve redraw exactly at those
episodes whose (1-based) index is a multiple of both `batch_size` and
`draw_frequency`; equivalently, at the batch boundary reached after episode
`k * batch_size` the redraw fires iff `draw_frequency` divides
`k * batch_size` — an episode-count condition, not an iteration-count
one. -/
theorem draw_requested_iff (b f e k : ℕ) :
    (draw_requested b f e = true ↔ b ∣ e ∧ f ∣ e)
    ∧ (draw_requested b f (k * b) = true ↔ f ∣ k * b) := by
  have hmod : ∀ m n : ℕ, m % n = 0 ↔ n ∣ m := by
    intro m n
    constructor
    · exact Nat.dvd_of_mod_eq_zero
    · rintro ⟨c, rfl⟩
      exact Nat.mul_mod_right n c
  constructor
  · simp [draw_requested, Bool.and_eq_true, hmod]
  · simp only [draw_requested, Bool.and_eq_true, beq_iff_eq, hmod]
    constructor
    · exact fun h => h.2
    · exact fun h => ⟨dvd_mul_left b k, h⟩

/-- C3: after each episode the counter is incremented; exactly when it is a
multiple of `batch_size`, the iteration counter is incremented, each RMSProp
cache becomes `decay_rate * cache + (1 - decay_rate) * gradient²` (with the
gradient including the just-accumulated episode), each weight matrix gains
`learning_rate * gradient / (sqrt(cache) + 1e-5)`, and both gradient
accumulators are reset to zero; off batch boundaries the weights, caches and
iteration counter are untouched and the gradients only accumulate — the
RMSProp caches are never reset, only EMA-updated or left alone. -/
theorem learn_episode_batch_update {O H A : ℕ} (cfg : KPConfig)
    (s : LearnState O H A) (ch1 : Matrix (Fin O) (Fin H) ℝ)
    (ch2 : Matrix (Fin H) (Fin A) ℝ) :
    (learn_episode cfg s ch1 ch2).episode_nr = s.episode_nr + 1
    ∧ ((s.episode_nr + 1) % cfg.batch_size = 0 →
        (learn_episode cfg s ch1 ch2).iteration = s.iteration + 1
        ∧ (∀ i j, (learn_episode cfg s ch1 ch2).rmsprop1 i j
            = cfg.decay_rate * s.rmsprop1 i j
              + (1 - cfg.decay_rate) * (s.gradient1 + ch1) i j ^ 2)
        ∧ (∀ i j, (learn_episode cfg s ch1 ch2).rmsprop2 i j
            = cfg.decay_rate * s.rmsprop2 i j
              + (1 - cfg.decay_rate) * (s.gradient2 + ch2) i j ^ 2)
        ∧ (∀ i j, (learn_episode cfg s ch1 ch2).w1 i j
            = s.w1 i j + cfg.learning_rate * (s.gradient1 + ch1) i j
                / (Real.sqrt ((learn_episode cfg s ch1 ch2).rmsprop1 i j) + 1e-5))
        ∧ (∀ i j, (learn_episode cfg s ch1 ch2).w2 i j
            = s.w2 i j + cfg.learning_rate * (s.gradient2 + ch2) i j
                / (Real.sqrt ((learn_episode cfg s ch1 ch2).rmsprop2 i j) + 1e-5))
        ∧ (learn_episode cfg s ch1 ch2).gradient1 = 0
        ∧ (learn_episode cfg s ch1 ch2).gradient2 = 0)
    ∧ (¬((s.episode_nr + 1) % cfg.batch_size = 0) →
        (learn_episode cfg s ch1 ch2).iteration = s.iteration
        ∧ (learn_episode cfg s ch1 ch2).rmsprop1 = s.rmsprop1
        ∧ (learn_episode cfg s ch1 ch2).rmsprop2 = s.rmsprop2
        ∧ (learn_episode cfg s ch1 ch2).w1 = s.w1
        ∧ (learn_episode cfg s ch1 ch2).w2 = s.w2
        ∧ (learn_episode cfg s ch1 ch2).gradient1 = s.gradient1 + ch1
        ∧ (learn_episode cfg s ch1 ch2).gradient2 = s.gradient2 + ch2) := by
  by_cases hb : (s.episode_nr + 1) % cfg.batch_size = 0
  · refine ⟨by simp [learn_episode, hb], fun _ => ?_, fun hc => absurd hb hc⟩
    refine ⟨by simp [learn_episode, hb], fun i j => ?_, fun i j => ?_,
      fun i j => ?_, fun i j => ?_, by simp [learn_episode, hb],
      by simp [learn_episode, hb]⟩ <;>
    simp [learn_episode, hb]
  · refine ⟨by simp [learn_episode, hb], fun hc => absurd hc hb, fun _ => ?_⟩
    refine ⟨?_, ?_, ?_, ?_, ?_, ?_, ?_⟩ <;> simp [learn_episode, hb]

/-- C3 witness: at `batch_size = 1` the first episode is a batch boundary
and the iteration counter becomes 1; at `batch_size = 2` it is not, and the
iteration counter stays 0. -/
theorem learn_episode_batch_update_witness :
    ((learn_episode ⟨5/100, 1, 99/100⟩
        (⟨0, 0, 0, 0, 0, 0, 0, 0⟩ : LearnState 1 1 1) 0 0).iteration = 0 + 1)
    ∧ ((learn_episode ⟨5/100, 2, 99/100⟩
        (⟨0, 0, 0, 0, 0, 0, 0, 0⟩ : LearnState 1 1 1) 0 0).iteration = 0) :=
  ⟨((learn_episode_batch_update _ _ _ _).2.1 (by decide)).1,
   ((learn_episode_batch_update _ _ _ _).2.2 (by decide)).1⟩

/-- All five record lists of a trajectory have length equal to the number of
environment steps taken. -/
def aligned {σ R P X : Type} (t : Traj σ R P X) : Prop :=
  t.states.length = t.stepsTaken ∧ t.actions.length = t.stepsTaken
  ∧ t.rewards.length = t.stepsTaken ∧ t.probs.length = t.stepsTaken
  ∧ t.x1s.length = t.stepsTaken

theorem loop_aligned {σ R P X : Type} (step : σ → ℕ → σ × R × Bool)
    (choose : σ → ℕ × P × X) (render renderOk : Bool) :
    ∀ (n : ℕ) (s : σ) (acc t : Traj σ R P X),
      get_trajectory_loop step choose render renderOk n s acc = Except.ok t →
      aligned acc → aligned t ∧ t.stepsTaken ≤ acc.stepsTaken + n := by
  intro n
  induction n with
  | zero =>
    intro s acc t h ha
    simp only [get_trajectory_loop, Except.ok.injEq] at h
    subst h
    exact ⟨ha, Nat.le_refl _⟩
  | succ n ih =>
    intro s acc t h ha
    obtain ⟨h1, h2, h3, h4, h5⟩ := ha
    simp only [get_trajectory_loop] at h
    split at h
    · simp only [Except.ok.injEq] at h
      subst h
      refine ⟨⟨?_, ?_, ?_, ?_, ?_⟩, ?_⟩ <;>
        simp [List.length_append, h1, h2, h3, h4, h5]
    · split at h
      · split at h
        · have := ih _ _ _ h
            ⟨by simp [List.length_append, h1], by simp [List.length_append, h2],
             by simp [List.length_append, h3], by simp [List.length_append, h4],
             by simp [List.length_append, h5]⟩
          have hstep : t.stepsTaken ≤ acc.stepsTaken + 1 + n := this.2
          exact ⟨this.1, by omega⟩
        · simp at h
      · have := ih _ _ _ h
          ⟨by simp [List.length_append, h1], by simp [List.length_append, h2],
           by simp [List.length_append, h3], by simp [List.length_append, h4],
           by simp [List.length_append, h5]⟩
        have hstep : t.stepsTaken ≤ acc.stepsTaken + 1 + n := this.2
        exact ⟨this.1, by omega⟩

theorem loop_no_error {σ R P X : Type} (step : σ → ℕ → σ × R × Bool)
    (choose : σ → ℕ × P × X) (render renderOk : Bool)
    (hok : render = false ∨ renderOk = true) :
    ∀ (n : ℕ) (s : σ) (acc : Traj σ R P X),
      exceptOk (get_trajectory_loop step choose render renderOk n s acc) = true := by
  intro n
  induction n with
  | zero => intro s acc; rfl
  | succ n ih =>
    intro s acc
    simp only [get_trajectory_loop]
    split
    · rfl
    · rcases hok with hr | hro
      · subst hr
        simp only [Bool.false_eq_true, if_false]
        exact ih _ _
      · subst hro
        split
        · simp only [if_true]
          exact ih _ _
        · exact ih _ _

theorem loop_renders_off {σ R P X : Type} (step : σ → ℕ → σ × R × Bool)
    (choose : σ → ℕ × P × X) (renderOk : Bool) :
    ∀ (n : ℕ) (s : σ) (acc t : Traj σ R P X),
      get_trajectory_loop step choose false renderOk n s acc = Except.ok t →
      t.renders = acc.renders := by
  intro n
  induction n with
  | zero =>
    intro s acc t h
    simp only [get_trajectory_loop, Except.ok.injEq] at h
    subst h; rfl
  | succ n ih =>
    intro s acc t h
    simp only [get_trajectory_loop, Bool.false_eq_true, if_false] at h
    split at h
    · simp only [Except.ok.injEq] at h
      subst h; rfl
    · have hr := ih _ _ _ h
      exact hr

theorem loop_renders_on {σ R P X : Type} (step : σ → ℕ → σ × R × Bool)
    (choose : σ → ℕ × P × X) :
    ∀ (n : ℕ) (s : σ) (acc t : Traj σ R P X), acc.endedByDone = false →
      get_trajectory_loop step choose true true n s acc = Except.ok t →
      t.renders + (if t.endedByDone then 1 else 0) + acc.stepsTaken
        = t.stepsTaken + acc.renders := by
  intro n
  induction n with
  | zero =>
    intro s acc t hd h
    simp only [get_trajectory_loop, Except.ok.injEq] at h
    subst h
    simp [hd]
    omega
  | succ n ih =>
    intro s acc t hd h
    simp only [get_trajectory_loop] at h
    split at h
    · simp only [Except.ok.injEq] at h
      subst h
      simp
      omega
    · simp only [if_true] at h
      have := ih _ _ _ (by simpa using hd) h
      simp at this ⊢
      omega

theorem loop_renders_fail {σ R P X : Type} (step : σ → ℕ → σ × R × Bool)
    (choose : σ → ℕ × P × X) :
    ∀ (n : ℕ) (s : σ) (acc t : Traj σ R P X),
      get_trajectory_loop step choose true false n s acc = Except.ok t →
      t.renders = acc.renders
        ∧ (t.stepsTaken = acc.stepsTaken ∨ t.endedByDone = true) := by
  intro n
  induction n with
  | zero =>
    intro s acc t h
    simp only [get_trajectory_loop, Except.ok.injEq] at h
    subst h
    exact ⟨rfl, Or.inl rfl⟩
  | succ n ih =>
    intro s acc t h
    simp only [get_trajectory_loop] at h
    split at h
    · simp only [Except.ok.injEq] at h
      subst h
      exact ⟨rfl, Or.inr rfl⟩
    · simp at h

/-- C9: every trajectory the collector returns has its five per-step record
lists of equal length, that length is the number of environment steps taken
and never exceeds `episode_max_length`; the loop stops at environment
termination or at the step cap, whichever comes first, and reaching the cap
is not an error (whenever rendering is disabled or the renderer succeeds,
the collector returns a trajectory, never an error). -/
theorem get_trajectory_invariants {σ R P X : Type} (reset : σ)
    (step : σ → ℕ → σ × R × Bool) (choose : σ → ℕ × P × X)
    (render renderOk : Bool) (maxLen : ℕ) :
    (∀ t : Traj σ R P X,
      get_trajectory reset step choose render renderOk maxLen = Except.ok t →
      t.states.length = t.stepsTaken ∧ t.actions.length = t.stepsTaken
      ∧ t.rewards.length = t.stepsTaken ∧ t.probs.length = t.stepsTaken
      ∧ t.x1s.length = t.stepsTaken ∧ t.stepsTaken ≤ maxLen)
    ∧ ((render = false ∨ renderOk = true) →
        exceptOk (get_trajectory reset step choose render renderOk maxLen)
          = true) := by
  constructor
  · intro t h
    have := loop_aligned step choose render renderOk maxLen reset _ t h
      ⟨rfl, rfl, rfl, rfl, rfl⟩
    obtain ⟨⟨a1, a2, a3, a4, a5⟩, hle⟩ := this
    exact ⟨a1, a2, a3, a4, a5, by simpa [emptyTraj] using hle⟩
  · intro hok
    exact loop_no_error step choose render renderOk hok maxLen reset _

/-- The trajectory collected from a concrete two-step environment
(termination on the second step) with rendering disabled and cap 5. -/
def twoStepCapTraj : Traj ℕ ℕ ℕ ℕ :=
  { states := [0, 1], actions := [0, 0], rewards := [0, 0], probs := [0, 0],
    x1s := [0, 0], stepsTaken := 2, renders := 0, endedByDone := true }

/-- C9 witness: a concrete two-step environment (termination on the second
step, cap 5) yields a trajectory whose steps taken stay ≤ 5, and collection
succeeds. -/
theorem get_trajectory_invariants_witness :
    twoStepCapTraj.stepsTaken ≤ 5
    ∧ exceptOk (get_trajectory (σ := ℕ) (R := ℕ) (P := ℕ) (X := ℕ) 0
        (fun s _ => (s + 1, 0, decide (1 ≤ s))) (fun _ => (0, 0, 0))
        false true 5) = true :=
  ⟨((get_trajectory_invariants 0 (fun s _ => (s + 1, 0, decide (1 ≤ s)))
      (fun _ => (0, 0, 0)) false true 5).1 twoStepCapTraj (by rfl)).2.2.2.2.2,
   (get_trajectory_invariants 0 (fun s _ => (s + 1, 0, decide (1 ≤ s)))
      (fun _ => (0, 0, 0)) false true 5).2 (Or.inl rfl)⟩

/-- C8 counterexample: with rendering enabled and a working renderer, an
episode whose single environment step reports `done` produces a trajectory
with one step and zero rendering calls — so no rendering call is made after
each step, contrary to the claim; and with a failing renderer and a
non-terminating environment, collection aborts with an error — so a
rendering failure does abort trajectory collection, again contrary to the
claim. -/
theorem get_trajectory_render_counterexample :
    get_trajectory (σ := ℕ) (R := ℕ) (P := ℕ) (X := ℕ) 0
        (fun s _ => (s, 0, true)) (fun _ => (0, 0, 0)) true true 3
      = Except.ok
          { states := [0], actions := [0], rewards := [0], probs := [0],
            x1s := [0], stepsTaken := 1, renders := 0, endedByDone := true }
    ∧ get_trajectory (σ := ℕ) (R := ℕ) (P := ℕ) (X := ℕ) 0
        (fun s _ => (s + 1, 0, false)) (fun _ => (0, 0, 0)) true false 2
      = Except.error "render failed" :=
  ⟨rfl, rfl⟩

/-- C8 amended: when rendering is enabled the collector makes a rendering
call after each environment step that does not end the episode (one call
per step, minus one if the episode terminated); a failure of that rendering
call aborts collection — so a trajectory returned despite a failing
renderer made no rendering call and took at most one, terminating, step —
and when rendering is not enabled no rendering call is made. -/
theorem get_trajectory_render_behavior {σ R P X : Type} (reset : σ)
    (step : σ → ℕ → σ × R × Bool) (choose : σ → ℕ × P × X)
    (renderOk : Bool) (maxLen : ℕ) :
    (∀ t : Traj σ R P X,
      get_trajectory reset step choose false renderOk maxLen = Except.ok t →
      t.renders = 0)
    ∧ (∀ t : Traj σ R P X,
        get_trajectory reset step choose true true maxLen = Except.ok t →
        t.renders + (if t.endedByDone then 1 else 0) = t.stepsTaken)
    ∧ (∀ t : Traj σ R P X,
        get_trajectory reset step choose true false maxLen = Except.ok t →
        t.renders = 0 ∧ (t.stepsTaken = 0 ∨ t.endedByDone = true)) := by
  refine ⟨?_, ?_, ?_⟩
  · intro t h
    exact loop_renders_off step choose renderOk maxLen reset _ t h
  · intro t h
    have := loop_renders_on step choose maxLen reset _ t rfl h
    simpa using this
  · intro t h
    exact loop_renders_fail step choose maxLen reset _ t h

/-- The trajectory collected from the two-step environment with rendering
enabled and a working renderer: one rendering call (after the first,
non-terminal step) and two steps. -/
def twoStepRenderTraj : Traj ℕ ℕ ℕ ℕ :=
  { states := [0, 1], actions := [0, 0], rewards := [0, 0], probs := [0, 0],
    x1s := [0, 0], stepsTaken := 2, renders := 1, endedByDone := true }

/-- C8 amended witness: a two-step episode (second step terminal) with
rendering enabled and a working renderer makes exactly one rendering call:
`renders + 1 = stepsTaken = 2`. -/
theorem get_trajectory_render_behavior_witness :
    twoStepRenderTraj.renders
      + (if twoStepRenderTraj.endedByDone then 1 else 0)
    = twoStepRenderTraj.stepsTaken :=
  (get_trajectory_render_behavior (σ := ℕ) (R := ℕ) (P := ℕ) (X := ℕ) 0
      (fun s _ => (s + 1, 0, decide (1 ≤ s))) (fun _ => (0, 0, 0))
      true 4).2.1 twoStepRenderTraj (by rfl)

theorem discount_rewards_length (l : List ℝ) (g : ℝ) :
    (discount_rewards l g).length = l.length := by
  induction l with
  | nil => rfl
  | cons x xs ih => simp [discount_rewards, ih]

theorem headD_eq_getD (l : List ℝ) : l.headD 0 = l.getD 0 0 := by
  cases l <;> rfl

/-- The modelled `discount_rewards` satisfies the spec's right-to-left
recurrence, with the out-of-range default 0 playing the role of
`G_T = 0`. -/
theorem discount_rewards_getD (l : List ℝ) (g : ℝ) :
    ∀ i, i < l.length →
      (discount_rewards l g).getD i 0
        = l.getD i 0 + g * (discount_rewards l g).getD (i + 1) 0 := by
  induction l with
  | nil => intro i hi; simp at hi
  | cons x xs ih =>
    intro i hi
    cases i with
    | zero =>
      simp only [discount_rewards, List.getD_cons_zero, List.getD_cons_succ,
        headD_eq_getD]
    | succ i =>
      have hi2 : i < xs.length := by simpa using hi
      simp only [discount_rewards, List.getD_cons_succ]
      exact ih i hi2

theorem getD_ofFn {n : ℕ} (f : Fin n → ℝ) (t : Fin n) :
    (List.ofFn f).getD t.val 0 = f t := by
  rw [List.getD_eq_getElem?_getD]
  simp [List.getElem?_ofFn]

theorem sum_eq_sum_getD (l : List ℝ) :
    l.sum = ∑ i ∈ Finset.range l.length, l.getD i 0 := by
  induction l with
  | nil => simp
  | cons x xs ih =>
    rw [List.sum_cons, ih, List.length_cons, Finset.sum_range_succ']
    simp only [List.getD_cons_succ, List.getD_cons_zero]
    ring

theorem sum_map_sub_mean (l : List ℝ) (a : ℝ) :
    (l.map fun x => x - a).sum = l.sum - l.length * a := by
  induction l with
  | nil => simp
  | cons x xs ih =>
    simp only [List.map_cons, List.sum_cons, List.length_cons, ih]
    push_cast
    ring

theorem getD_map_lt (l : List ℝ) (f : ℝ → ℝ) :
    ∀ i, i < l.length → (l.map f).getD i 0 = f (l.getD i 0) := by
  induction l with
  | nil => intro i hi; simp at hi
  | cons x xs ih =>
    intro i hi
    cases i with
    | zero => rfl
    | succ i => exact ih i (by simpa using hi)

theorem np_mean_centered (l : List ℝ) (hl : l ≠ []) :
    np_mean (l.map fun x => x - np_mean l) = 0 := by
  have hn : (l.length : ℝ) ≠ 0 :=
    Nat.cast_ne_zero.mpr fun h => hl (List.length_eq_zero.mp h)
  rw [np_mean, sum_map_sub_mean, List.length_map, np_mean]
  have hcancel : (l.length : ℝ) * (l.sum / l.length) = l.sum := by
    field_simp
  rw [hcancel, sub_self, zero_div]

/-- Centering a list does not change its population standard deviation, so
the source's `np.std` of the already-centered returns equals the standard
deviation of the raw returns. -/
theorem np_std_centered (l : List ℝ) (hl : l ≠ []) :
    np_std (l.map fun x => x - np_mean l) = np_std l := by
  unfold np_std
  rw [np_mean_centered l hl, List.length_map, List.map_map]
  have hfun : ((fun x => (x - 0) ^ 2) ∘ fun x : ℝ => x - np_mean l)
      = fun x : ℝ => (x - np_mean l) ^ 2 := by
    funext x
    simp
  rw [hfun]

/-- Entry `i` of `standardize l` is `(l_i - mean l) / std l`. -/
theorem standardize_getD (l : List ℝ) (i : ℕ) (hi : i < l.length) :
    (standardize l).getD i 0 = (l.getD i 0 - np_mean l) / np_std l := by
  have hl : l ≠ [] := by
    intro h
    subst h
    simp at hi
  simp only [standardize]
  rw [getD_map_lt _ _ i (by rw [List.length_map]; exact hi),
    getD_map_lt _ _ i hi, np_std_centered l hl]

/-- C2: the per-episode gradient is built exactly as claimed: the discounted
returns `G` satisfy the right-to-left recurrence
`G_t = r_t + gamma * G_{t+1}` (with `G` read as 0 past the end, i.e.
`G_T = 0`), and `episode_gradient` equals the backward pass applied to the
stacked states, the stacked recorded hidden activations, and the error
matrix whose row `t` is `(one-hot action) − (recorded probabilities)`
scaled by the standardized return `(G_t − mean G) / std G`. -/
theorem episode_gradient_correct {T O H A : ℕ} (gamma : ℝ)
    (w2 : Matrix (Fin H) (Fin A) ℝ) (state : Matrix (Fin T) (Fin O) ℝ)
    (x1 : Matrix (Fin T) (Fin H) ℝ) (action : Fin T → ℕ)
    (prob : Matrix (Fin T) (Fin A) ℝ) (reward : Fin T → ℝ) :
    (∀ t : Fin T,
      (discount_rewards (List.ofFn reward) gamma).getD t.val 0
        = reward t + gamma
          * (discount_rewards (List.ofFn reward) gamma).getD (t.val + 1) 0)
    ∧ episode_gradient gamma w2 state x1 action prob reward
      = backward_step w2 state x1
          (Matrix.of fun t a =>
            ((if a.val = action t then 1 else 0) - prob t a)
              * (((discount_rewards (List.ofFn reward) gamma).getD t.val 0
                  - np_mean (discount_rewards (List.ofFn reward) gamma))
                 / np_std (discount_rewards (List.ofFn reward) gamma))) := by
  constructor
  · intro t
    have hlen : t.val < (List.ofFn reward).length := by simpa using t.isLt
    have h := discount_rewards_getD (List.ofFn reward) gamma t.val hlen
    rw [h, getD_ofFn]
  · simp only [episode_gradient]
    congr 1
    ext t a
    have hi : t.val < (discount_rewards (List.ofFn reward) gamma).length := by
      rw [discount_rewards_length, List.length_ofFn]
      exact t.isLt
    simp only [Matrix.of_apply]
    rw [standardize_getD _ _ hi]

end DeepRL
